import Mathlib

/-!
# Verification of the MusicStaffPackage layout engine

Shallow embedding of the notation layout engine: the rhythm-staff
bar/beat allocation state machine (`RhythmStaff`), the chord
collision-avoidance passes of `NoteRenderer`, the pitched staff's
note list operations (`MusicStaff`), and the staff-type strategy
selection performed by the constructors.

Beat bookkeeping in the source uses JavaScript numbers whose values are
always multiples of 0.25 (sixteenth = 0.25, eighth = 0.5, quarter = 1,
half = 2, whole = 4), hence exactly representable; the embedding scales
all beat quantities by 4 and works in ℕ "sixteenth units"
(sixteenth = 1, eighth = 2, quarter = 4, half = 8, whole = 16).
Horizontal cursor positions are kept in ℚ, with the staff's
`quarterNoteSpacing` an arbitrary rational configuration parameter.
-/

namespace MusicStaffPkg

/-- Durations accepted by the generic duration parser of the rhythm
staff (`w`, `h`, `q`, `e`); sixteenths are accepted only by the beam
API. -/
inductive Dur
  | w
  | h
  | q
  | e
deriving DecidableEq, Repr

/-- Beat value of a parsed duration in sixteenth units (quarter note =
4 units). Modelled from the spec: `durationBeatValueMap` lives in
`src/constants.ts`, which is absent from `src/`; the spec gives
whole = 4, half = 2, quarter = 1, eighth = 0.5 beats. -/
def durUnits : Dur → ℕ
  | .w => 16
  | .h => 8
  | .q => 4
  | .e => 2

/-- Durations accepted by `drawBeamedNotes`. -/
inductive BeamDur
  | e
  | s
deriving DecidableEq, Repr

/-- Beat value of a beamed duration in sixteenth units. Modelled from
the spec: eighth = 0.5 beats, sixteenth = 0.25 beats. -/
def beamUnits : BeamDur → ℕ
  | .e => 2
  | .s => 1

/-- Modelled from the spec: `parseDurationNoteString` from
`src/helpers/notehelpers.ts` (absent from `src/`). Duration-only
grammar `<Duration:w|h|q|e>`; `s` is accepted only by the beam API,
not this parser; anything else fails with ParseError (here `none`). -/
def parseDurationNoteString (tok : String) : Option Dur :=
  if tok = "w" then some .w
  else if tok = "h" then some .h
  else if tok = "q" then some .q
  else if tok = "e" then some .e
  else none

/-- Errors surfaced by the rhythm staff operations. -/
inductive RErr
  | parseErr
  | maxBeat
  | stateErr
deriving DecidableEq, Repr

/-- Drawing-layer elements produced by the rhythm staff: a note group,
a rest group (drawn rests and filler rests both become `rest` groups in
the source), or a beamed group recording how many noteheads it drew. -/
inductive RElem
  | note (d : Dur)
  | rest (d : Dur)
  | beam (d : BeamDur) (drawn : ℕ)
deriving DecidableEq, Repr

/-- Configuration of a `RhythmStaff` instance. `quarterNoteSpacing` is
the rounded `barSpacing / topNumber` of the source, kept as an
arbitrary rational parameter; `BAR_SPACING` is the source constant 12. -/
structure RConfig where
  topNumber : ℕ
  barsCount : ℕ
  quarterNoteSpacing : ℚ
deriving Repr

/-- `BAR_SPACING` constant from the `RhythmStaff` source. -/
def BAR_SPACING : ℚ := 12

/-- One bar's capacity in sixteenth units (`topNumber` beats). -/
def RConfig.barU (c : RConfig) : ℕ := 4 * c.topNumber

/-- `maxBeatCount = barsCount * topNumber`, in sixteenth units. -/
def RConfig.maxU (c : RConfig) : ℕ := c.barsCount * (4 * c.topNumber)

/-- Mutable state of a `RhythmStaff`: `currentBeatCount` in sixteenth
units, the note cursor x position, and the `noteEntries` list of drawn
groups (in draw order). -/
structure RState where
  cbcU : ℕ
  cursorX : ℚ
  entries : List RElem
deriving DecidableEq, Repr

/-- Initial rhythm staff state. -/
def initR : RState := ⟨0, 0, []⟩

namespace RhythmStaff

/-- `checkAndCreateNewBar`: if the current bar is exactly full
(`currentBeatCount` a nonzero multiple of the numerator) and this is
not past the last bar, advance the cursor by one bar gap. -/
def checkAndCreateNewBar (c : RConfig) (s : RState) : RState :=
  if 0 < s.cbcU ∧ s.cbcU % c.barU = 0 ∧ s.cbcU < c.maxU then
    { s with cursorX := s.cursorX + BAR_SPACING }
  else s

/-- Fuelled body of `createRemainingRests`; the fuel only bounds the
number of loop iterations (each iteration removes at least 2 units, so
`beatsLeft` itself is always enough fuel) and keeps the recursion
structural. -/
def createRemainingRestsGo (fuel beatsLeft : ℕ) : List Dur :=
  match fuel with
  | 0 => []
  | fuel + 1 =>
    if beatsLeft = 0 then []
    else if 8 ≤ beatsLeft then
      Dur.h :: createRemainingRestsGo fuel (beatsLeft - 8)
    else if 4 ≤ beatsLeft then
      Dur.q :: createRemainingRestsGo fuel (beatsLeft - 4)
    else Dur.e :: createRemainingRestsGo fuel (beatsLeft - 2)

/-- `createRemainingRests`: greedy largest-fits-first decomposition of
the remaining beats of a bar into half (8 units), quarter (4 units),
and eighth (2 units) rests. The source loops `while beatsLeft > 0`,
subtracting the chosen rest's beat value each time (the final eighth
rest may overshoot a 1-unit remainder). -/
def createRemainingRests (beatsLeft : ℕ) : List Dur :=
  createRemainingRestsGo beatsLeft beatsLeft

/-- Total beat value (sixteenth units) of a list of rests. -/
def restUnits (rs : List Dur) : ℕ := (rs.map durUnits).sum

/-- Apply a list of filler rests to the state the way the source's
`createRemainingRests` loop does: each rest advances `currentBeatCount`
by its beat value and the cursor by `beatValue * quarterNoteSpacing`,
and is pushed onto the drawn entries. -/
def applyFillRests (c : RConfig) (s : RState) : List Dur → RState
  | [] => s
  | d :: rs =>
    applyFillRests c
      { cbcU := s.cbcU + durUnits d
        cursorX := s.cursorX + (durUnits d : ℚ) * c.quarterNoteSpacing / 4
        entries := s.entries ++ [RElem.rest d] }
      rs

/-- `checkAndFillBarWithRests`: when the incoming beat value exceeds
the beats remaining in the current bar, synthesize filler rests for the
remainder and advance the bar gap; otherwise do nothing. Returns the
new state together with the synthesized rest list. -/
def checkAndFillBarWithRests (c : RConfig) (s : RState) (u : ℕ) :
    RState × List Dur :=
  let rem := c.barU - s.cbcU % c.barU
  if rem < u then
    let rs := createRemainingRests rem
    let s' := applyFillRests c s rs
    ({ s' with cursorX := s'.cursorX + BAR_SPACING }, rs)
  else (s, [])

/-- Processing of one already-parsed `drawNote` token: fail with
MaxBeatError when capacity is already reached, otherwise advance the
bar gap if due, fill the bar with rests on overflow, then draw the note
and advance `currentBeatCount` and the cursor. -/
def noteTokenStep (c : RConfig) (s : RState) (d : Dur) :
    Except RErr RState :=
  if c.maxU ≤ s.cbcU then .error .maxBeat
  else
    let s1 := checkAndCreateNewBar c s
    let u := durUnits d
    let p := checkAndFillBarWithRests c s1 u
    .ok { cbcU := p.1.cbcU + u
          cursorX := p.1.cursorX + (u : ℚ) * c.quarterNoteSpacing / 4
          entries := p.1.entries ++ [RElem.note d] }

/-- Processing of one already-parsed `drawRest` token (identical beat
and cursor bookkeeping to `noteTokenStep`; draws a rest glyph). -/
def restTokenStep (c : RConfig) (s : RState) (d : Dur) :
    Except RErr RState :=
  if c.maxU ≤ s.cbcU then .error .maxBeat
  else
    let s1 := checkAndCreateNewBar c s
    let u := durUnits d
    let p := checkAndFillBarWithRests c s1 u
    .ok { cbcU := p.1.cbcU + u
          cursorX := p.1.cursorX + (u : ℚ) * c.quarterNoteSpacing / 4
          entries := p.1.entries ++ [RElem.rest d] }

/-- One `drawNote` token including parsing (the source parses before
the capacity check). -/
def drawNoteToken (c : RConfig) (s : RState) (tok : String) :
    Except RErr RState :=
  match parseDurationNoteString tok with
  | none => .error .parseErr
  | some d => noteTokenStep c s d

/-- One `drawRest` token including parsing. -/
def drawRestToken (c : RConfig) (s : RState) (tok : String) :
    Except RErr RState :=
  match parseDurationNoteString tok with
  | none => .error .parseErr
  | some d => restTokenStep c s d

/-- `drawNote` on a batch: tokens are processed left to right; the
first failing token aborts the rest of the batch, leaving the state
(and the committed groups it records) at the point of failure. -/
def drawNote (c : RConfig) (s : RState) :
    List String → RState × Option RErr
  | [] => (s, none)
  | t :: ts =>
    match drawNoteToken c s t with
    | .error e => (s, some e)
    | .ok s' => drawNote c s' ts

/-- `drawRest` on a batch, same control flow as `drawNote`. -/
def drawRest (c : RConfig) (s : RState) :
    List String → RState × Option RErr
  | [] => (s, none)
  | t :: ts =>
    match drawRestToken c s t with
    | .error e => (s, some e)
    | .ok s' => drawRest c s' ts

/-- `drawBeamedNotes`: requires at least 2 notes, fails with
MaxBeatError at capacity, otherwise draws
`min(noteCount, remainingBeatsInBar / beatValue)` noteheads — the
source's `for (i = 0; i < fixedNoteCount; i++)` loop runs a number of
iterations equal to the ceiling of that (possibly fractional) bound —
advancing `currentBeatCount` and the cursor for each drawn note. -/
def drawBeamedNotes (c : RConfig) (s : RState) (d : BeamDur)
    (noteCount : ℕ) : Except RErr RState :=
  if noteCount < 2 then .error .stateErr
  else if c.maxU ≤ s.cbcU then .error .maxBeat
  else
    let s1 := checkAndCreateNewBar c s
    let u := beamUnits d
    let rem := c.barU - s1.cbcU % c.barU
    let iter := if noteCount * u ≤ rem then noteCount
                else (rem + (u - 1)) / u
    .ok { cbcU := s1.cbcU + iter * u
          cursorX := s1.cursorX + (iter * u : ℚ) * c.quarterNoteSpacing / 4
          entries := s1.entries ++ [RElem.beam d iter] }

/-- `clearAllNotes`: resets the cursor, the beat count and the entry
list. -/
def clearAllNotes (_s : RState) : RState := initR

end RhythmStaff

/-- A widget-facing call on a rhythm staff instance. -/
inductive ROp
  | note (toks : List String)
  | rest (toks : List String)
  | beam (d : BeamDur) (noteCount : ℕ)
  | clear
deriving Repr

/-- Apply one call, with any thrown error caught by the caller (the
state is whatever the call left behind; a throwing call that mutated
nothing leaves the state unchanged). -/
def applyROp (c : RConfig) (s : RState) : ROp → RState
  | .note ts => (RhythmStaff.drawNote c s ts).1
  | .rest ts => (RhythmStaff.drawRest c s ts).1
  | .beam d n =>
    match RhythmStaff.drawBeamedNotes c s d n with
    | .ok s' => s'
    | .error _ => s
  | .clear => RhythmStaff.clearAllNotes s

/-- Run a sequence of caught calls from a state. -/
def runROps (c : RConfig) (s : RState) (ops : List ROp) : RState :=
  ops.foldl (applyROp c) s

/-- Any fuel at least `beatsLeft` computes the same greedy rest list. -/
theorem createRemainingRestsGo_fuel :
    ∀ (f f' b : ℕ), b ≤ f → b ≤ f' →
      RhythmStaff.createRemainingRestsGo f b =
        RhythmStaff.createRemainingRestsGo f' b := by
  intro f
  induction f with
  | zero =>
    intro f' b hf hf'
    have hb : b = 0 := by omega
    subst hb
    cases f' with
    | zero => rfl
    | succ f'' => simp [RhythmStaff.createRemainingRestsGo]
  | succ f ih =>
    intro f' b hf hf'
    by_cases h0 : b = 0
    · subst h0
      cases f' with
      | zero => simp [RhythmStaff.createRemainingRestsGo]
      | succ f'' => simp [RhythmStaff.createRemainingRestsGo]
    · cases f' with
      | zero => omega
      | succ f'' =>
        by_cases h8 : 8 ≤ b
        · simp only [RhythmStaff.createRemainingRestsGo, h0, h8, if_true,
            if_false, ite_true, ite_false]
          rw [ih f'' (b - 8) (by omega) (by omega)]
        · by_cases h4 : 4 ≤ b
          · simp only [RhythmStaff.createRemainingRestsGo, h0, h8, h4,
              if_true, if_false, ite_true, ite_false]
            rw [ih f'' (b - 4) (by omega) (by omega)]
          · simp only [RhythmStaff.createRemainingRestsGo, h0, h8, h4,
              if_true, if_false, ite_true, ite_false]
            rw [ih f'' (b - 2) (by omega) (by omega)]

/-- The recurrence satisfied by `createRemainingRests`, mirroring the
source loop. -/
theorem createRemainingRests_eq (b : ℕ) :
    RhythmStaff.createRemainingRests b =
      if b = 0 then []
      else if 8 ≤ b then
        Dur.h :: RhythmStaff.createRemainingRests (b - 8)
      else if 4 ≤ b then
        Dur.q :: RhythmStaff.createRemainingRests (b - 4)
      else Dur.e :: RhythmStaff.createRemainingRests (b - 2) := by
  by_cases h0 : b = 0
  · subst h0; rfl
  · obtain ⟨b', rfl⟩ : ∃ b', b = b' + 1 := ⟨b - 1, by omega⟩
    unfold RhythmStaff.createRemainingRests
    by_cases h8 : 8 ≤ b' + 1
    · simp only [RhythmStaff.createRemainingRestsGo, h0, h8, if_true,
        if_false, ite_true, ite_false]
      rw [createRemainingRestsGo_fuel b' (b' + 1 - 8) (b' + 1 - 8)
        (by omega) (by omega)]
    · by_cases h4 : 4 ≤ b' + 1
      · simp only [RhythmStaff.createRemainingRestsGo, h0, h8, h4, if_true,
          if_false, ite_true, ite_false]
        rw [createRemainingRestsGo_fuel b' (b' + 1 - 4) (b' + 1 - 4)
          (by omega) (by omega)]
      · simp only [RhythmStaff.createRemainingRestsGo, h0, h8, h4, if_true,
          if_false, ite_true, ite_false]
        rw [createRemainingRestsGo_fuel b' (b' + 1 - 2) (b' + 1 - 2)
          (by omega) (by omega)]

/-- The sum of the greedy filler-rest decomposition of `n` units is `n`
rounded up to the next even number of units: exact for any remainder
that is a whole number of eighth notes, one unit (a sixteenth) over
otherwise. -/
theorem restUnits_createRemainingRests (n : ℕ) :
    RhythmStaff.restUnits (RhythmStaff.createRemainingRests n) = n + n % 2 := by
  induction n using Nat.strong_induction_on with
  | _ n ih =>
    rw [createRemainingRests_eq]
    by_cases h0 : n = 0
    · simp [h0, RhythmStaff.restUnits]
    · by_cases h8 : 8 ≤ n
      · have := ih (n - 8) (by omega)
        simp only [h0, h8, if_false, if_true, ite_true, ite_false]
        simp [RhythmStaff.restUnits, durUnits] at this ⊢
        omega
      · by_cases h4 : 4 ≤ n
        · have := ih (n - 4) (by omega)
          simp only [h0, h8, h4, if_false, if_true, ite_true, ite_false]
          simp [RhythmStaff.restUnits, durUnits] at this ⊢
          omega
        · have := ih (n - 2) (by omega)
          simp only [h0, h8, h4, if_false, ite_false]
          simp [RhythmStaff.restUnits, durUnits] at this ⊢
          omega

/-- `checkAndCreateNewBar` only moves the cursor, never the beat
count. -/
theorem checkAndCreateNewBar_cbcU (c : RConfig) (s : RState) :
    (RhythmStaff.checkAndCreateNewBar c s).cbcU = s.cbcU := by
  unfold RhythmStaff.checkAndCreateNewBar
  split <;> rfl

/-- `checkAndCreateNewBar` keeps the entry list. -/
theorem checkAndCreateNewBar_entries (c : RConfig) (s : RState) :
    (RhythmStaff.checkAndCreateNewBar c s).entries = s.entries := by
  unfold RhythmStaff.checkAndCreateNewBar
  split <;> rfl

/-- Beat count after applying filler rests. -/
theorem applyFillRests_cbcU (c : RConfig) (rs : List Dur) :
    ∀ s : RState, (RhythmStaff.applyFillRests c s rs).cbcU =
      s.cbcU + RhythmStaff.restUnits rs := by
  induction rs with
  | nil => intro s; simp [RhythmStaff.applyFillRests, RhythmStaff.restUnits]
  | cons d rs ih =>
    intro s
    rw [RhythmStaff.applyFillRests, ih]
    simp [RhythmStaff.restUnits]
    omega

/-- Beat count after the bar-overflow check: unchanged when the token
fits, advanced by the (possibly one-unit-overshooting) filler total
when it does not. -/
theorem checkAndFillBarWithRests_cbcU (c : RConfig) (s : RState) (u : ℕ) :
    (RhythmStaff.checkAndFillBarWithRests c s u).1.cbcU =
      if c.barU - s.cbcU % c.barU < u then
        s.cbcU + (c.barU - s.cbcU % c.barU) + (c.barU - s.cbcU % c.barU) % 2
      else s.cbcU := by
  by_cases hrem : c.barU - s.cbcU % c.barU < u
  · simp [RhythmStaff.checkAndFillBarWithRests, hrem, applyFillRests_cbcU,
      restUnits_createRemainingRests]
    omega
  · simp [RhythmStaff.checkAndFillBarWithRests, hrem]

/-- The bar ceiling of a beat count strictly below capacity stays
within capacity. -/
theorem bar_ceil_le (m B x : ℕ) (hm : 0 < m) (hx : x < B * m) :
    x - x % m + m ≤ B * m := by
  have hq : x % m < m := Nat.mod_lt _ hm
  have hd : m * (x / m) + x % m = x := Nat.div_add_mod x m
  have hlt : x / m < B := by
    by_contra hc
    push_neg at hc
    have h1 : B * m ≤ x / m * m := Nat.mul_le_mul_right m hc
    have h2 : x / m * m ≤ x := Nat.div_mul_le_self x m
    omega
  have h3 : m * (x / m) + m ≤ B * m := by
    calc m * (x / m) + m = m * (x / m + 1) := by ring
    _ ≤ m * B := Nat.mul_le_mul_left m hlt
    _ = B * m := Nat.mul_comm _ _
  omega

/-- Every duration token is worth at most a whole note (16 units). -/
theorem durUnits_le (d : Dur) : durUnits d ≤ 16 := by
  cases d <;> simp [durUnits]

/-- A successful `drawNote` token leaves the beat count at most 17
units (4.25 beats) above capacity: entering below capacity, the filler
rests reach at most one unit past the bar ceiling (which is within
capacity) and the drawn token adds at most a whole note. -/
theorem noteTokenStep_ok_bound (c : RConfig) (s : RState) (d : Dur)
    (s' : RState) (hT : 0 < c.topNumber)
    (h : RhythmStaff.noteTokenStep c s d = .ok s') :
    s'.cbcU ≤ c.maxU + 17 := by
  unfold RhythmStaff.noteTokenStep at h
  split at h
  · exact absurd h (by simp)
  · rename_i hlt
    simp only [Except.ok.injEq] at h
    have hc : s'.cbcU =
        (RhythmStaff.checkAndFillBarWithRests c
          (RhythmStaff.checkAndCreateNewBar c s) (durUnits d)).1.cbcU
          + durUnits d := by
      rw [← h]
    rw [checkAndFillBarWithRests_cbcU, checkAndCreateNewBar_cbcU] at hc
    have hm : 0 < c.barU := by
      simp [RConfig.barU]; omega
    have hmax : c.maxU = c.barsCount * c.barU := by
      simp [RConfig.maxU, RConfig.barU]
    have hlt' : s.cbcU < c.barsCount * c.barU := by omega
    have h1 : s.cbcU % c.barU < c.barU := Nat.mod_lt _ hm
    have h2 : s.cbcU % c.barU ≤ s.cbcU := Nat.mod_le _ _
    have h3 := bar_ceil_le c.barU c.barsCount s.cbcU hm hlt'
    have h4 := durUnits_le d
    split at hc <;> omega

/-- Same bound for a successful `drawRest` token. -/
theorem restTokenStep_ok_bound (c : RConfig) (s : RState) (d : Dur)
    (s' : RState) (hT : 0 < c.topNumber)
    (h : RhythmStaff.restTokenStep c s d = .ok s') :
    s'.cbcU ≤ c.maxU + 17 := by
  unfold RhythmStaff.restTokenStep at h
  split at h
  · exact absurd h (by simp)
  · rename_i hlt
    simp only [Except.ok.injEq] at h
    have hc : s'.cbcU =
        (RhythmStaff.checkAndFillBarWithRests c
          (RhythmStaff.checkAndCreateNewBar c s) (durUnits d)).1.cbcU
          + durUnits d := by
      rw [← h]
    rw [checkAndFillBarWithRests_cbcU, checkAndCreateNewBar_cbcU] at hc
    have hm : 0 < c.barU := by
      simp [RConfig.barU]; omega
    have hmax : c.maxU = c.barsCount * c.barU := by
      simp [RConfig.maxU, RConfig.barU]
    have hlt' : s.cbcU < c.barsCount * c.barU := by omega
    have h1 : s.cbcU % c.barU < c.barU := Nat.mod_lt _ hm
    have h2 : s.cbcU % c.barU ≤ s.cbcU := Nat.mod_le _ _
    have h3 := bar_ceil_le c.barU c.barsCount s.cbcU hm hlt'
    have h4 := durUnits_le d
    split at hc <;> omega

/-- A successful `drawBeamedNotes` call overshoots capacity by at most
one unit (the rounded-up iteration count can add at most
`beatValue - 1 ≤ 1` units past the bar ceiling). -/
theorem drawBeamedNotes_ok_bound (c : RConfig) (s : RState)
    (d : BeamDur) (n : ℕ) (s' : RState) (hT : 0 < c.topNumber)
    (h : RhythmStaff.drawBeamedNotes c s d n = .ok s') :
    s'.cbcU ≤ c.maxU + 1 := by
  unfold RhythmStaff.drawBeamedNotes at h
  split at h
  · exact absurd h (by simp)
  · split at h
    · exact absurd h (by simp)
    · rename_i hn hlt
      simp only [Except.ok.injEq] at h
      have hc : s'.cbcU =
          (RhythmStaff.checkAndCreateNewBar c s).cbcU +
            (if n * beamUnits d ≤
                c.barU - (RhythmStaff.checkAndCreateNewBar c s).cbcU % c.barU
              then n
              else (c.barU - (RhythmStaff.checkAndCreateNewBar c s).cbcU % c.barU
                + (beamUnits d - 1)) / beamUnits d) * beamUnits d := by
        rw [← h]
      rw [checkAndCreateNewBar_cbcU] at hc
      have hm : 0 < c.barU := by
        simp [RConfig.barU]; omega
      have hmax : c.maxU = c.barsCount * c.barU := by
        simp [RConfig.maxU, RConfig.barU]
      have hlt' : s.cbcU < c.barsCount * c.barU := by omega
      have h1 : s.cbcU % c.barU < c.barU := Nat.mod_lt _ hm
      have h2 : s.cbcU % c.barU ≤ s.cbcU := Nat.mod_le _ _
      have h3 := bar_ceil_le c.barU c.barsCount s.cbcU hm hlt'
      have hu1 : 1 ≤ beamUnits d := by cases d <;> simp [beamUnits]
      have hu2 : beamUnits d ≤ 2 := by cases d <;> simp [beamUnits]
      split at hc
      · rename_i hfit
        omega
      · rename_i hbig
        have h5 :
            (c.barU - s.cbcU % c.barU + (beamUnits d - 1)) / beamUnits d
              * beamUnits d ≤
              c.barU - s.cbcU % c.barU + (beamUnits d - 1) :=
          Nat.div_mul_le_self _ _
        omega

/-- `drawNote` batches preserve the `maxBeatCount + 17` unit bound. -/
theorem drawNote_batch_bound (c : RConfig) (hT : 0 < c.topNumber) :
    ∀ (toks : List String) (s : RState), s.cbcU ≤ c.maxU + 17 →
      ((RhythmStaff.drawNote c s toks).1).cbcU ≤ c.maxU + 17 := by
  intro toks
  induction toks with
  | nil => intro s hs; exact hs
  | cons t ts ih =>
    intro s hs
    rw [RhythmStaff.drawNote]
    unfold RhythmStaff.drawNoteToken
    cases hp : parseDurationNoteString t with
    | none => exact hs
    | some d =>
      simp only
      cases hstep : RhythmStaff.noteTokenStep c s d with
      | error e => exact hs
      | ok s' => exact ih s' (noteTokenStep_ok_bound c s d s' hT hstep)

/-- `drawRest` batches preserve the `maxBeatCount + 17` unit bound. -/
theorem drawRest_batch_bound (c : RConfig) (hT : 0 < c.topNumber) :
    ∀ (toks : List String) (s : RState), s.cbcU ≤ c.maxU + 17 →
      ((RhythmStaff.drawRest c s toks).1).cbcU ≤ c.maxU + 17 := by
  intro toks
  induction toks with
  | nil => intro s hs; exact hs
  | cons t ts ih =>
    intro s hs
    rw [RhythmStaff.drawRest]
    unfold RhythmStaff.drawRestToken
    cases hp : parseDurationNoteString t with
    | none => exact hs
    | some d =>
      simp only
      cases hstep : RhythmStaff.restTokenStep c s d with
      | error e => exact hs
      | ok s' => exact ih s' (restTokenStep_ok_bound c s d s' hT hstep)

/-- Every caught widget call preserves the amended beat bound. -/
theorem applyROp_bound (c : RConfig) (hT : 0 < c.topNumber)
    (s : RState) (op : ROp) (hs : s.cbcU ≤ c.maxU + 17) :
    (applyROp c s op).cbcU ≤ c.maxU + 17 := by
  cases op with
  | note ts => exact drawNote_batch_bound c hT ts s hs
  | rest ts => exact drawRest_batch_bound c hT ts s hs
  | beam d n =>
    simp only [applyROp]
    cases hstep : RhythmStaff.drawBeamedNotes c s d n with
    | error e => simp only [hstep]; exact hs
    | ok s' =>
      simp only [hstep]
      have := drawBeamedNotes_ok_bound c s d n s' hT hstep
      omega
  | clear =>
    simp [applyROp, RhythmStaff.clearAllNotes, initR]

/-- A concrete 4/4 single-bar staff with quarter-note spacing 15. -/
def cfg41 : RConfig := ⟨4, 1, 15⟩

/-- A concrete 4/4 two-bar staff with quarter-note spacing 15. -/
def cfg42 : RConfig := ⟨4, 2, 15⟩

/-- C2, counterexample: on a 4/4 single-bar staff the batch
`drawNote(["q","q","q","h"])` completes without error and leaves
`currentBeatCount` at 6 beats (24 units), strictly above
`maxBeatCount = 4` beats (16 units), so the claimed invariant
`currentBeatCount ≤ maxBeatCount` does not hold after every call. -/
theorem c2_invariant_counterexample :
    ¬ ((runROps cfg41 initR [ROp.note ["q", "q", "q", "h"]]).cbcU ≤
        cfg41.maxU) := by
  decide

/-- C2, amended: across every sequence of caught `drawNote`,
`drawRest`, `drawBeamedNotes` and `clearAllNotes` calls on a staff with
a positive numerator, `currentBeatCount` (a natural number, hence
always ≥ 0) stays at most `maxBeatCount` plus 4.25 beats (17 sixteenth
units): a token accepted just below capacity can add up to a whole
note after the filler rests, and the filler itself can overshoot the
bar by a sixteenth. The original bound `maxBeatCount` itself can be
exceeded when a token overflows the final bar. -/
theorem c2_beat_invariant_amended (c : RConfig) (hT : 0 < c.topNumber)
    (ops : List ROp) :
    (runROps c initR ops).cbcU ≤ c.maxU + 17 := by
  suffices h : ∀ (l : List ROp) (s : RState), s.cbcU ≤ c.maxU + 17 →
      (l.foldl (applyROp c) s).cbcU ≤ c.maxU + 17 by
    exact h ops initR (by simp [initR])
  intro l
  induction l with
  | nil => intro s hs; exact hs
  | cons op l ih =>
    intro s hs
    exact ih (applyROp c s op) (applyROp_bound c hT s op hs)

/-- Witness for `c2_beat_invariant_amended` at numerator 4, one bar,
and the overflow batch of the scenario. -/
theorem c2_beat_invariant_amended_witness :
    (runROps cfg41 initR [ROp.note ["q", "q", "q", "h"]]).cbcU ≤
      cfg41.maxU + 17 :=
  c2_beat_invariant_amended cfg41 (by decide) [ROp.note ["q", "q", "q", "h"]]

/-- C1, counterexample: on the 4/4 single-bar staff the batch
`drawNote(["q","q","q","h"])` does NOT fail with MaxBeatError — the
capacity check runs only at the start of a token, before rest filling,
so after the filler quarter rest the half note is drawn anyway and the
call returns without error with `currentBeatCount = 6` beats. -/
theorem c1_scenario_counterexample :
    (RhythmStaff.drawNote cfg41 initR ["q", "q", "q", "h"]).2 = none ∧
      (RhythmStaff.drawNote cfg41 initR ["q", "q", "q", "h"]).1.cbcU = 24 := by
  decide

/-- C1, amended: numerator 4, one bar, `drawNote(["q","q","q","h"])`:
the first three quarter notes leave 1 beat (4 units) remaining; the
half-note token synthesizes exactly one filler quarter rest and then
draws the half note anyway (the capacity check runs only at token
start), finishing without error at `currentBeatCount = 6` beats of a
4-beat maximum; the MaxBeatError only surfaces on the next call. -/
theorem c1_scenario_amended :
    (RhythmStaff.drawNote cfg41 initR ["q", "q", "q"]).2 = none ∧
      (RhythmStaff.drawNote cfg41 initR ["q", "q", "q"]).1.cbcU = 12 ∧
      cfg41.maxU - 12 = 4 ∧
      (RhythmStaff.drawNote cfg41 initR ["q", "q", "q", "h"]).2 = none ∧
      (RhythmStaff.drawNote cfg41 initR ["q", "q", "q", "h"]).1.entries =
        [RElem.note .q, RElem.note .q, RElem.note .q,
          RElem.rest .q, RElem.note .h] ∧
      (RhythmStaff.drawNote cfg41 initR ["q", "q", "q", "h"]).1.cbcU = 24 ∧
      (RhythmStaff.drawNote cfg41
        (RhythmStaff.drawNote cfg41 initR ["q", "q", "q", "h"]).1
        ["q"]).2 = some .maxBeat := by
  decide

/-- Project the state out of a successful rhythm staff call (initial
state for a failed one); used to phrase concrete runs. -/
def okState (r : Except RErr RState) : RState :=
  match r with
  | .ok s => s
  | .error _ => initR

/-- C3, counterexample: on a 4/4 single-bar staff (capacity 4 beats =
16 units) the batch `["q","q","q","h"]` is accepted in full — 6 beats
— without any MaxBeatError, so it is not true that exactly N×B beats
are accepted before MaxBeatError. -/
theorem c3_capacity_counterexample :
    (RhythmStaff.drawNote cfg41 initR ["q", "q", "q", "h"]).2 = none ∧
      cfg41.maxU = 16 ∧
      (RhythmStaff.drawNote cfg41 initR ["q", "q", "q", "h"]).1.cbcU = 24 := by
  decide

/-- C3, amended: a well-formed token fails with MaxBeatError exactly
when `currentBeatCount ≥ maxBeatCount` as it is processed (this is the
only error a parsed note/rest token can raise, and — for a beam — the
only one once `count ≥ 2`), and a failing token leaves the state
(beat count, cursor and entries) unchanged; the cumulative accepted
beats may however exceed N×B when the final accepted token overflows
the last bar, so "exactly N×B accepted" does not hold. -/
theorem c3_maxbeat_iff_amended (c : RConfig) (s : RState) (d : Dur)
    (bd : BeamDur) (n : ℕ) (hn : 2 ≤ n) :
    (RhythmStaff.noteTokenStep c s d = .error .maxBeat ↔ c.maxU ≤ s.cbcU) ∧
    (RhythmStaff.restTokenStep c s d = .error .maxBeat ↔ c.maxU ≤ s.cbcU) ∧
    (RhythmStaff.drawBeamedNotes c s bd n = .error .maxBeat ↔
      c.maxU ≤ s.cbcU) ∧
    (∀ tok, ((RhythmStaff.drawNote c s [tok]).2).isSome →
      (RhythmStaff.drawNote c s [tok]).1 = s) ∧
    (∀ tok, ((RhythmStaff.drawRest c s [tok]).2).isSome →
      (RhythmStaff.drawRest c s [tok]).1 = s) ∧
    (∀ e, RhythmStaff.drawBeamedNotes c s bd n = .error e →
      applyROp c s (ROp.beam bd n) = s) := by
  refine ⟨?_, ?_, ?_, ?_, ?_, ?_⟩
  · unfold RhythmStaff.noteTokenStep
    split
    · rename_i h; simp [h]
    · rename_i h; simp [h]
  · unfold RhythmStaff.restTokenStep
    split
    · rename_i h; simp [h]
    · rename_i h; simp [h]
  · unfold RhythmStaff.drawBeamedNotes
    have h2 : ¬ n < 2 := by omega
    simp only [h2, ite_false, if_false]
    split
    · rename_i h; simp [h]
    · rename_i h; simp [h]
  · intro tok hsome
    rw [RhythmStaff.drawNote] at hsome ⊢
    cases hk : RhythmStaff.drawNoteToken c s tok with
    | error e => simp [hk]
    | ok s' =>
      rw [hk] at hsome
      simp [RhythmStaff.drawNote] at hsome
  · intro tok hsome
    rw [RhythmStaff.drawRest] at hsome ⊢
    cases hk : RhythmStaff.drawRestToken c s tok with
    | error e => simp [hk]
    | ok s' =>
      rw [hk] at hsome
      simp [RhythmStaff.drawRest] at hsome
  · intro e he
    simp [applyROp, he]

/-- Witness for `c3_maxbeat_iff_amended` on the 4/4 single-bar staff at
the initial state with a quarter note, an eighth beam and count 2. -/
theorem c3_maxbeat_iff_amended_witness :
    (RhythmStaff.noteTokenStep cfg41 initR Dur.q = .error .maxBeat ↔
      cfg41.maxU ≤ initR.cbcU) ∧
    (RhythmStaff.restTokenStep cfg41 initR Dur.q = .error .maxBeat ↔
      cfg41.maxU ≤ initR.cbcU) ∧
    (RhythmStaff.drawBeamedNotes cfg41 initR BeamDur.e 2 = .error .maxBeat ↔
      cfg41.maxU ≤ initR.cbcU) ∧
    (∀ tok, ((RhythmStaff.drawNote cfg41 initR [tok]).2).isSome →
      (RhythmStaff.drawNote cfg41 initR [tok]).1 = initR) ∧
    (∀ tok, ((RhythmStaff.drawRest cfg41 initR [tok]).2).isSome →
      (RhythmStaff.drawRest cfg41 initR [tok]).1 = initR) ∧
    (∀ e, RhythmStaff.drawBeamedNotes cfg41 initR BeamDur.e 2 = .error e →
      applyROp cfg41 initR (ROp.beam BeamDur.e 2) = initR) :=
  c3_maxbeat_iff_amended cfg41 initR Dur.q BeamDur.e 2 (by norm_num)

/-- C4, counterexample: the remainder need not be a whole number of
eighth notes — after a three-note sixteenth beam the first bar of a
4/4 staff has 3.25 beats (13 units) remaining, and a whole-note token
makes the engine synthesize rests [half, quarter, eighth] summing to
3.5 beats (14 units), not exactly the remainder. -/
theorem c4_fill_counterexample :
    (runROps cfg42 initR [ROp.beam BeamDur.s 3]).cbcU = 3 ∧
      cfg42.barU - (runROps cfg42 initR [ROp.beam BeamDur.s 3]).cbcU %
        cfg42.barU = 13 ∧
      RhythmStaff.createRemainingRests 13 = [Dur.h, Dur.q, Dur.e] ∧
      RhythmStaff.restUnits (RhythmStaff.createRemainingRests 13) = 14 ∧
      (okState (RhythmStaff.noteTokenStep cfg42
          (runROps cfg42 initR [ROp.beam BeamDur.s 3]) Dur.w)).entries =
        [RElem.beam BeamDur.s 3, RElem.rest Dur.h, RElem.rest Dur.q,
          RElem.rest Dur.e, RElem.note Dur.w] := by
  decide

/-- C4, amended: the filler rests are the greedy largest-fits-first
decomposition of the remainder over half/quarter/eighth, engaged
exactly when the token exceeds the beats remaining in the current bar,
followed by a bar-gap advance; the rests sum to exactly the remainder
whenever the remainder is a whole number of eighth notes (always the
case unless a sixteenth beam left a quarter-of-an-eighth fraction —
then the final eighth rest overshoots by one sixteenth), and a 1-beat
remainder yields exactly one quarter rest, not multiple eighth rests. -/
theorem c4_fill_amended (c : RConfig) (s : RState) (u : ℕ) :
    (∀ n : ℕ, n % 2 = 0 →
      RhythmStaff.restUnits (RhythmStaff.createRemainingRests n) = n) ∧
    RhythmStaff.createRemainingRests 4 = [Dur.q] ∧
    (RhythmStaff.checkAndFillBarWithRests c s u).2 =
      (if c.barU - s.cbcU % c.barU < u then
        RhythmStaff.createRemainingRests (c.barU - s.cbcU % c.barU)
      else []) ∧
    (c.barU - s.cbcU % c.barU < u →
      (RhythmStaff.checkAndFillBarWithRests c s u).1.cursorX =
        (RhythmStaff.applyFillRests c s
          (RhythmStaff.createRemainingRests
            (c.barU - s.cbcU % c.barU))).cursorX + BAR_SPACING) := by
  refine ⟨?_, by decide, ?_, ?_⟩
  · intro n hn
    rw [restUnits_createRemainingRests]
    omega
  · by_cases h : c.barU - s.cbcU % c.barU < u
    · simp [RhythmStaff.checkAndFillBarWithRests, h]
    · simp [RhythmStaff.checkAndFillBarWithRests, h]
  · intro h
    simp [RhythmStaff.checkAndFillBarWithRests, h]

/-- Witness for `c4_fill_amended` on the single-bar 4/4 staff with
three beats used and a half-note token (remainder one beat). -/
theorem c4_fill_amended_witness :
    RhythmStaff.restUnits (RhythmStaff.createRemainingRests 4) = 4 ∧
      (RhythmStaff.checkAndFillBarWithRests cfg41 ⟨12, 45, []⟩ 8).2 =
        (if cfg41.barU - 12 % cfg41.barU < 8 then
          RhythmStaff.createRemainingRests (cfg41.barU - 12 % cfg41.barU)
        else []) ∧
      (RhythmStaff.checkAndFillBarWithRests cfg41 ⟨12, 45, []⟩ 8).1.cursorX =
        (RhythmStaff.applyFillRests cfg41 ⟨12, 45, []⟩
          (RhythmStaff.createRemainingRests
            (cfg41.barU - 12 % cfg41.barU))).cursorX + BAR_SPACING := by
  refine ⟨(c4_fill_amended cfg41 ⟨12, 45, []⟩ 8).1 4 (by norm_num), ?_, ?_⟩
  · exact (c4_fill_amended cfg41 ⟨12, 45, []⟩ 8).2.2.1
  · exact (c4_fill_amended cfg41 ⟨12, 45, []⟩ 8).2.2.2 (by decide)

/-- C5, counterexample: when a prior sixteenth beam (here 3 sixteenth
notes, 3 units) leaves the remaining beats not a multiple of the
eighth-note value, `min(count, remaining/beatValue)` is fractional and
the drawing loop rounds it up: `drawBeamedNotes("e", 8)` with 13 units
(3.25 beats) remaining draws 7 eighth notes (3.5 beats), advancing the
beat count to 17 units — past the 16-unit bar line, so the beamed
group does straddle a bar line. -/
theorem c5_beam_straddle_counterexample :
    (runROps cfg42 initR [ROp.beam BeamDur.s 3]).cbcU = 3 ∧
      cfg42.barU - 3 % cfg42.barU = 13 ∧
      (okState (RhythmStaff.drawBeamedNotes cfg42
          (runROps cfg42 initR [ROp.beam BeamDur.s 3])
          BeamDur.e 8)).entries =
        [RElem.beam BeamDur.s 3, RElem.beam BeamDur.e 7] ∧
      (okState (RhythmStaff.drawBeamedNotes cfg42
          (runROps cfg42 initR [ROp.beam BeamDur.s 3])
          BeamDur.e 8)).cbcU = 17 ∧
      ¬ ((okState (RhythmStaff.drawBeamedNotes cfg42
          (runROps cfg42 initR [ROp.beam BeamDur.s 3])
          BeamDur.e 8)).cbcU ≤ cfg42.barU) := by
  decide

/-- C5, amended: `drawBeamedNotes` requires `count ≥ 2` and, whenever
the beats remaining in the current bar are a whole multiple of the
duration's beat value (which holds in particular for the
`drawBeamedNotes("e", 8)`-with-2-beats-remaining example), draws
exactly `min(count, remaining/beatValue)` notes, advancing the beat
count and cursor only for that capped count — never past the bar
line — and silently dropping the excess. When a sixteenth beam has
left a fractional `remaining/beatValue`, the loop bound is rounded up
instead, and the group may overshoot the bar line by one sixteenth. -/
theorem c5_beam_cap_amended (c : RConfig) (s : RState) (d : BeamDur)
    (n : ℕ) (hn : 2 ≤ n) (hcap : s.cbcU < c.maxU)
    (hdvd : beamUnits d ∣ (c.barU - s.cbcU % c.barU)) :
    RhythmStaff.drawBeamedNotes c s d n =
      .ok { cbcU := s.cbcU +
              min n ((c.barU - s.cbcU % c.barU) / beamUnits d) * beamUnits d
            cursorX := (RhythmStaff.checkAndCreateNewBar c s).cursorX +
              ((min n ((c.barU - s.cbcU % c.barU) / beamUnits d) *
                beamUnits d : ℕ) : ℚ) * c.quarterNoteSpacing / 4
            entries := s.entries ++
              [RElem.beam d
                (min n ((c.barU - s.cbcU % c.barU) / beamUnits d))] } ∧
    s.cbcU + min n ((c.barU - s.cbcU % c.barU) / beamUnits d) * beamUnits d ≤
      s.cbcU - s.cbcU % c.barU + c.barU := by
  have hu : 0 < beamUnits d := by cases d <;> simp [beamUnits]
  have hmod : s.cbcU % c.barU ≤ s.cbcU := Nat.mod_le _ _
  obtain ⟨k, hk⟩ := hdvd
  have hdivk : (c.barU - s.cbcU % c.barU) / beamUnits d = k := by
    rw [hk, Nat.mul_div_cancel_left _ hu]
  have hiter :
      (if n * beamUnits d ≤ c.barU - s.cbcU % c.barU then n
        else (c.barU - s.cbcU % c.barU + (beamUnits d - 1)) / beamUnits d) =
        min n ((c.barU - s.cbcU % c.barU) / beamUnits d) := by
    split
    · rename_i hfit
      have : n ≤ (c.barU - s.cbcU % c.barU) / beamUnits d :=
        (Nat.le_div_iff_mul_le hu).mpr hfit
      omega
    · rename_i hbig
      have h1 : c.barU - s.cbcU % c.barU + (beamUnits d - 1) =
          (beamUnits d - 1) + beamUnits d * k := by omega
      have h2 : ((beamUnits d - 1) + beamUnits d * k) / beamUnits d =
          (beamUnits d - 1) / beamUnits d + k :=
        Nat.add_mul_div_left _ _ hu
      have h3 : (beamUnits d - 1) / beamUnits d = 0 :=
        Nat.div_eq_of_lt (by omega)
      have h4 : (c.barU - s.cbcU % c.barU) / beamUnits d < n := by
        rw [hdivk]
        by_contra hc
        push_neg at hc
        have h5 : n * beamUnits d ≤ k * beamUnits d :=
          Nat.mul_le_mul_right _ hc
        have h6 : k * beamUnits d = beamUnits d * k := Nat.mul_comm _ _
        omega
      rw [h1, h2, h3, hdivk]
      omega
  constructor
  · unfold RhythmStaff.drawBeamedNotes
    have h2 : ¬ n < 2 := by omega
    have h3 : ¬ c.maxU ≤ s.cbcU := by omega
    simp only [h2, h3, ite_false, if_false]
    rw [checkAndCreateNewBar_cbcU, checkAndCreateNewBar_entries, hiter,
      Nat.cast_mul]
  · have hmin : min n ((c.barU - s.cbcU % c.barU) / beamUnits d) *
        beamUnits d ≤ c.barU - s.cbcU % c.barU := by
      rw [hdivk, hk]
      rcases Nat.le_total n k with h | h
      · have hmn : min n k = n := by omega
        rw [hmn, Nat.mul_comm (beamUnits d) k]
        exact Nat.mul_le_mul_right _ h
      · have hmn : min n k = k := by omega
        rw [hmn]
        exact (Nat.mul_comm k (beamUnits d)).le
    have h0 : c.maxU = c.barsCount * c.barU := by
      simp [RConfig.maxU, RConfig.barU]
    have hbar0 : 0 < c.barU := by
      rcases Nat.eq_zero_or_pos c.barU with h | h
      · rw [h, Nat.mul_zero] at h0; omega
      · exact h
    have hmodlt : s.cbcU % c.barU < c.barU := Nat.mod_lt _ hbar0
    set M := min n ((c.barU - s.cbcU % c.barU) / beamUnits d) * beamUnits d
      with hM
    omega

/-- Witness for `c5_beam_cap_amended`: the spec example — an
eight-note eighth beam requested with exactly 2 beats (8 units)
remaining in the first bar of a two-bar 4/4 staff draws exactly 4
notes and advances by exactly 2 beats, up to the bar line. -/
theorem c5_beam_cap_amended_witness :
    RhythmStaff.drawBeamedNotes cfg42 ⟨8, 30, []⟩ BeamDur.e 8 =
      .ok { cbcU := 8 +
              min 8 ((cfg42.barU - 8 % cfg42.barU) / beamUnits BeamDur.e) *
                beamUnits BeamDur.e
            cursorX := (RhythmStaff.checkAndCreateNewBar cfg42
                ⟨8, 30, []⟩).cursorX +
              ((min 8 ((cfg42.barU - 8 % cfg42.barU) / beamUnits BeamDur.e) *
                beamUnits BeamDur.e : ℕ) : ℚ) * cfg42.quarterNoteSpacing / 4
            entries := ([] : List RElem) ++
              [RElem.beam BeamDur.e
                (min 8 ((cfg42.barU - 8 % cfg42.barU) /
                  beamUnits BeamDur.e))] } ∧
    8 + min 8 ((cfg42.barU - 8 % cfg42.barU) / beamUnits BeamDur.e) *
        beamUnits BeamDur.e ≤ 8 - 8 % cfg42.barU + cfg42.barU :=
  c5_beam_cap_amended cfg42 ⟨8, 30, []⟩ BeamDur.e 8 (by norm_num)
    (by decide) (by decide)

/-- A chord member as the `renderChord` post-passes see it: the
diatonic index from `getNameOctaveIdx` (a function of octave and pitch
name, strictly monotone in pitch height; its definition lives in the
helpers file absent from `src/`, but the passes only compare index
differences), whether the note carries an accidental (in which case an
accidental glyph was drawn in the note's group), the x-offset stored
in the accidental element's transform attribute (`none` while no
transform has been set; the passes read it back with a first-integer
regex, which returns exactly this value), and the x-offset of the note
group's own transform (`renderChord` initializes it to 0). -/
structure CEntry where
  idx : ℤ
  hasAcc : Bool
  accX : Option ℤ
  shiftX : ℤ
deriving DecidableEq, Repr

namespace NoteRenderer

/-- The loop of `chordOffsetCloseNotes`: starting from `prev = notes[0]`
and a sticky `closeNotesXOffset` of 0, each entry whose diatonic index
is exactly one above the compared predecessor is shifted right by
`half` (= `NOTE_SPACING / 2`) and its accidental transform is moved by
`-half` on top of whatever x it already stored; the loop then advances
`i` past the consumed entry, making the following entry the next
comparison base without examining it as a candidate. -/
def closeLoop (half : ℤ) (prev : CEntry) (off : ℤ) :
    List CEntry → List CEntry × ℤ
  | [] => ([], off)
  | curr :: rest =>
    if curr.idx - prev.idx = 1 then
      let curr' : CEntry :=
        { curr with
          shiftX := half
          accX := if curr.hasAcc then some (curr.accX.getD 0 - half)
                  else curr.accX }
      match rest with
      | [] => ([curr'], half)
      | next :: rest' =>
        let r := closeLoop half next half rest'
        (curr' :: next :: r.1, r.2)
    else
      let r := closeLoop half curr off rest
      (curr :: r.1, r.2)

/-- `chordOffsetCloseNotes`: runs the close-note scan over the chord
members (the first entry is never offset) and returns the updated
entries together with the last-applied offset. -/
def chordOffsetCloseNotes (half : ℤ) (notes : List CEntry) :
    List CEntry × ℤ :=
  match notes with
  | [] => ([], 0)
  | e0 :: rest =>
    let r := closeLoop half e0 0 rest
    (e0 :: r.1, r.2)

end NoteRenderer

/-- Specification-side scan over diatonic indices only, transcribing
the claim: an entry one step above the comparison base is marked
shifted, and after a resolved pair the scan resumes from the entry
after the consumed one (that entry becomes the new base unexamined). -/
def closeScan (p : ℤ) : List ℤ → List Bool
  | [] => []
  | a :: r =>
    if a - p = 1 then
      true ::
        (match r with
         | [] => []
         | b :: r' => false :: closeScan b r')
    else false :: closeScan a r

/-- Specification-side effect of the close-note pass on one entry: a
marked entry is shifted right by exactly `half` and its accidental (if
any) is moved by the opposite delta on top of its stored offset; an
unmarked entry is untouched. -/
def applyClose (half : ℤ) (e : CEntry) (b : Bool) : CEntry :=
  if b then
    { e with
      shiftX := half
      accX := if e.hasAcc then some (e.accX.getD 0 - half) else e.accX }
  else e

/-- Unfolding of `closeScan` on the empty tail. -/
theorem closeScan_nil (p : ℤ) : closeScan p [] = [] := by
  rw [closeScan.eq_def]

/-- Unfolding of `closeScan` when the head is not one step above the
base. -/
theorem closeScan_cons_ne (p a : ℤ) (l : List ℤ) (h : ¬ a - p = 1) :
    closeScan p (a :: l) = false :: closeScan a l := by
  rw [closeScan.eq_def]
  simp [h]

/-- Unfolding of `closeScan` on a matching final entry. -/
theorem closeScan_cons_one_nil (p a : ℤ) (h : a - p = 1) :
    closeScan p [a] = [true] := by
  rw [closeScan.eq_def]
  simp [h]

/-- Unfolding of `closeScan` on a matching entry with a successor: the
successor is skipped (marked unshifted) and becomes the new base. -/
theorem closeScan_cons_one_cons (p a b : ℤ) (l : List ℤ) (h : a - p = 1) :
    closeScan p (a :: b :: l) = true :: false :: closeScan b l := by
  rw [closeScan.eq_def]
  simp [h]

/-- The close-note loop is exactly the specification scan applied
entrywise, and it reports `half` exactly when some pair matched. -/
theorem closeLoop_spec (half : ℤ) :
    ∀ (n : ℕ) (es : List CEntry), es.length ≤ n → ∀ (prev : CEntry) (off : ℤ),
      NoteRenderer.closeLoop half prev off es =
        (es.zipWith (applyClose half) (closeScan prev.idx (es.map CEntry.idx)),
         if (closeScan prev.idx (es.map CEntry.idx)).any id then half
         else off) := by
  intro n
  induction n with
  | zero =>
    intro es hlen prev off
    have : es = [] := by
      cases es with
      | nil => rfl
      | cons a l => simp at hlen
    subst this
    simp [NoteRenderer.closeLoop, closeScan_nil]
  | succ n ih =>
    intro es hlen prev off
    cases es with
    | nil => simp [NoteRenderer.closeLoop, closeScan_nil]
    | cons curr rest =>
      by_cases hd : curr.idx - prev.idx = 1
      · cases rest with
        | nil =>
          simp only [List.map_cons, List.map_nil]
          simp only [closeScan_cons_one_nil _ _ hd]
          simp [NoteRenderer.closeLoop, hd, applyClose]
        | cons next rest' =>
          have hr : rest'.length ≤ n := by
            simp at hlen
            omega
          simp only [List.map_cons]
          simp only [closeScan_cons_one_cons _ _ _ _ hd]
          simp only [NoteRenderer.closeLoop, hd, if_true, ite_true]
          rw [ih rest' hr next half]
          simp [applyClose, hd]
      · have hr : rest.length ≤ n := by
          simp at hlen
          omega
        simp only [List.map_cons]
        simp only [closeScan_cons_ne _ _ _ hd]
        simp only [NoteRenderer.closeLoop, hd, if_false, ite_false]
        rw [ih rest hr curr off]
        simp [applyClose, hd]

/-- C6, confirmed: `chordOffsetCloseNotes` equals the specification
scan: the first entry is never shifted; an entry whose diatonic index
is exactly one above the compared predecessor is shifted right by
exactly `half` a notehead-width with its accidental (if any) moved by
the opposite delta to stay attached; entries compared with any other
index difference are returned completely unchanged; after a resolved
pair the scan resumes from the entry after the consumed second one
(`closeScan` consults only diatonic indices); and the reported offset
is `half` exactly when some pair matched. -/
theorem c6_close_notes_spec (half : ℤ) (e0 : CEntry) (es : List CEntry) :
    NoteRenderer.chordOffsetCloseNotes half (e0 :: es) =
      ((e0 :: es).zipWith (applyClose half)
        (false :: closeScan e0.idx (es.map CEntry.idx)),
       if (closeScan e0.idx (es.map CEntry.idx)).any id then half else 0) := by
  simp only [NoteRenderer.chordOffsetCloseNotes]
  rw [closeLoop_spec half es.length es (le_refl _) e0 0]
  simp [applyClose]

namespace NoteRenderer

/-- The loop of `chordOffsetConsecutiveAccidentals`: `cons` is the
running `consecutiveXOffset`, `mx` the running `maxConsecutiveXOffset`
(updated with `Math.min` only in the first branch), and `cnt` the
current run length. An accidental-bearing entry below the cap pushes
the cumulative offset by one more unit and stores
`consecutiveXOffset - ACCIDENTAL_OFFSET_X` into its accidental's
transform (the unit offset of the first accidental is baked into the
glyph); at the cap the run restarts from the base unit; a
non-accidental entry resets both the offset and the count (leaving its
transform untouched since the offset is 0). The final return value is
the negation of `mx`. Entries with `hasAcc` always carry an accidental
element, since `renderNote` draws one exactly when the parsed note has
an accidental. -/
def consLoop (A : ℤ) (CAP : ℕ) (cons mx : ℤ) (cnt : ℕ) :
    List CEntry → List CEntry × ℤ
  | [] => ([], -mx)
  | e :: rest =>
    if e.hasAcc ∧ cnt < CAP then
      let cons' := cons + A
      let e' := if cons' ≠ 0 then { e with accX := some (cons' - A) } else e
      let r := consLoop A CAP cons' (min mx cons') (cnt + 1) rest
      (e' :: r.1, r.2)
    else if e.hasAcc ∧ cnt ≤ CAP then
      let e' := if A ≠ 0 then { e with accX := some (A - A) } else e
      let r := consLoop A CAP A mx 1 rest
      (e' :: r.1, r.2)
    else
      let r := consLoop A CAP 0 mx 0 rest
      (e :: r.1, r.2)

/-- `chordOffsetConsecutiveAccidentals`, parameterized by the
`ACCIDENTAL_OFFSET_X` unit `A` and the
`CHORD_MAX_CONSECUTIVE_ACCIDENTALS` cap (both from the constants file
absent from `src/`; per the spec the unit is a fixed positive leftward
offset). Returns the updated entries and the reported offset. -/
def chordOffsetConsecutiveAccidentals (A : ℤ) (CAP : ℕ)
    (notes : List CEntry) : List CEntry × ℤ :=
  consLoop A CAP 0 0 0 notes

end NoteRenderer

/-- Specification-side run positions: position of each entry inside its
current run of consecutive accidental-bearing entries (0 for entries
without an accidental, which reset the run), restarting from 1 once the
configured cap is reached. -/
def runPositions (CAP : ℕ) (cnt : ℕ) : List Bool → List ℕ
  | [] => []
  | b :: r =>
    if b then
      if cnt < CAP then (cnt + 1) :: runPositions CAP (cnt + 1) r
      else 1 :: runPositions CAP 1 r
    else 0 :: runPositions CAP 0 r

/-- Specification-side effect of the accidental pass on one entry: run
position `k ≥ 1` stores cumulative offset `A * k` minus the glyph-baked
unit into the accidental transform; position 0 leaves the entry
untouched. -/
def applyAcc (A : ℤ) (e : CEntry) (k : ℕ) : CEntry :=
  if k = 0 then e else { e with accX := some (A * k - A) }

/-- Folding `min` over elements that dominate the seed keeps the
seed. -/
theorem foldl_min_eq_of_le (l : List ℤ) :
    ∀ a : ℤ, (∀ x ∈ l, a ≤ x) → l.foldl min a = a := by
  induction l with
  | nil => intro a _; rfl
  | cons x l ih =>
    intro a h
    have hx : min a x = a := min_eq_left (h x (by simp))
    simpa [hx] using ih a (fun y hy => h y (by simp [hy]))

/-- Every run position is at most the cap (for a positive cap). -/
theorem runPositions_le (CAP : ℕ) (hCAP : 1 ≤ CAP) :
    ∀ (bs : List Bool) (cnt : ℕ), cnt ≤ CAP →
      ∀ k ∈ runPositions CAP cnt bs, k ≤ CAP := by
  intro bs
  induction bs with
  | nil => intro cnt _ k hk; simp [runPositions] at hk
  | cons b r ih =>
    intro cnt hcnt k hk
    cases b with
    | true =>
      by_cases hlt : cnt < CAP
      · simp only [runPositions, hlt, if_true, ite_true] at hk
        rcases List.mem_cons.mp hk with h | h
        · omega
        · exact ih (cnt + 1) (by omega) k h
      · simp only [runPositions, hlt, if_false, ite_false, ite_true] at hk
        rcases List.mem_cons.mp hk with h | h
        · omega
        · exact ih 1 hCAP k h
    | false =>
      simp only [runPositions, ite_false] at hk
      rcases List.mem_cons.mp hk with h | h
      · omega
      · exact ih 0 (by omega) k h

/-- Unfolding of `runPositions` on a below-cap accidental entry. -/
theorem runPositions_cons_true_lt (CAP cnt : ℕ) (r : List Bool)
    (h : cnt < CAP) :
    runPositions CAP cnt (true :: r) = (cnt + 1) :: runPositions CAP (cnt + 1) r := by
  rw [runPositions.eq_def]
  simp [h]

/-- Unfolding of `runPositions` on an accidental entry at the cap. -/
theorem runPositions_cons_true_ge (CAP cnt : ℕ) (r : List Bool)
    (h : ¬ cnt < CAP) :
    runPositions CAP cnt (true :: r) = 1 :: runPositions CAP 1 r := by
  rw [runPositions.eq_def]
  simp [h]

/-- Unfolding of `runPositions` on a non-accidental entry. -/
theorem runPositions_cons_false (CAP cnt : ℕ) (r : List Bool) :
    runPositions CAP cnt (false :: r) = 0 :: runPositions CAP 0 r := by
  rw [runPositions.eq_def]
  simp

/-- The accidental-stacking loop started at run count `cnt` with
cumulative offset `A * cnt` and a zero minimum computes exactly the
specification run positions and returns 0. -/
theorem consLoop_spec (A : ℤ) (CAP : ℕ) (hA : 0 < A) :
    ∀ (es : List CEntry) (cnt : ℕ), 1 ≤ CAP → cnt ≤ CAP →
      NoteRenderer.consLoop A CAP (A * cnt) 0 cnt es =
        (es.zipWith (applyAcc A) (runPositions CAP cnt (es.map CEntry.hasAcc)),
          0) := by
  intro es
  induction es with
  | nil =>
    intro cnt hCAP hcnt
    simp [NoteRenderer.consLoop, runPositions]
  | cons e rest ih =>
    intro cnt hCAP hcnt
    by_cases hb : e.hasAcc
    · by_cases hlt : cnt < CAP
      · have hne : A * (cnt : ℤ) + A ≠ 0 := by positivity
        have hmin0 : (0 : ℤ) ⊓ (A * (cnt : ℤ) + A) = 0 :=
          min_eq_left (by positivity)
        have hstep := ih (cnt + 1) hCAP (by omega)
        have hcast : A * ((cnt + 1 : ℕ) : ℤ) = A * (cnt : ℤ) + A := by
          push_cast
          ring
        rw [hcast] at hstep
        simp only [NoteRenderer.consLoop, hb, hlt, and_self, true_and,
          and_true, if_true, ite_true, hne, hmin0, ne_eq,
          not_false_eq_true]
        rw [hstep]
        simp only [List.map_cons, hb,
          runPositions_cons_true_lt CAP cnt _ hlt, List.zipWith_cons_cons]
        simp [applyAcc, CEntry.mk.injEq, hb]
        all_goals ring
      · have hA0 : A ≠ 0 := ne_of_gt hA
        have hstep := ih 1 hCAP hCAP
        have hcast : A * ((1 : ℕ) : ℤ) = A := by
          push_cast
          ring
        rw [hcast] at hstep
        simp only [NoteRenderer.consLoop, hb, hlt, and_self, true_and,
          and_true, and_false, false_and, if_false, ite_false, hcnt,
          if_true, ite_true, hA0, ne_eq, not_false_eq_true]
        rw [hstep]
        simp only [List.map_cons, hb,
          runPositions_cons_true_ge CAP cnt _ hlt, List.zipWith_cons_cons]
        simp [applyAcc, CEntry.mk.injEq, hb]
    · have hb' : e.hasAcc = false := by
        simpa using hb
      have hstep := ih 0 hCAP (by omega)
      have hcast : A * ((0 : ℕ) : ℤ) = 0 := by
        push_cast
        ring
      rw [hcast] at hstep
      simp only [NoteRenderer.consLoop, hb', false_and, Bool.false_eq_true,
        if_false, ite_false]
      rw [hstep]
      simp only [List.map_cons, hb',
        runPositions_cons_false CAP cnt _, List.zipWith_cons_cons]
      simp [applyAcc]

/-- C7, confirmed (constants spec-modelled): with the accidental unit a
positive leftward offset and a positive stacking cap,
`chordOffsetConsecutiveAccidentals` assigns every entry its
specification run position — cumulative offset magnitude `A * k`
non-decreasing along a run of consecutive accidental-bearing entries
(any non-accidental entry resets the run) up to the cap, after which
the offset restarts from the base unit — and the returned offset
equals the most-negative cumulative offset reached over the whole
chord (the fold of `min` over the cumulative values, seeded at the
initial 0), which is 0; in particular a chord with zero accidentals
yields a returned offset of 0. -/
theorem c7_consecutive_accidentals_spec (A : ℤ) (CAP : ℕ)
    (es : List CEntry) (hA : 0 < A) (hCAP : 1 ≤ CAP) :
    NoteRenderer.chordOffsetConsecutiveAccidentals A CAP es =
      (es.zipWith (applyAcc A)
        (runPositions CAP 0 (es.map CEntry.hasAcc)), 0) ∧
    (NoteRenderer.chordOffsetConsecutiveAccidentals A CAP es).2 =
      ((runPositions CAP 0 (es.map CEntry.hasAcc)).map
        (fun k : ℕ => A * (k : ℤ))).foldl min 0 := by
  have h0 : A * (0 : ℕ) = 0 := by ring
  have hmain := consLoop_spec A CAP hA es 0 hCAP (by omega)
  rw [h0] at hmain
  constructor
  · exact hmain
  · rw [NoteRenderer.chordOffsetConsecutiveAccidentals, hmain]
    have : ∀ x ∈ (runPositions CAP 0 (es.map CEntry.hasAcc)).map
        (fun k : ℕ => A * (k : ℤ)), (0 : ℤ) ≤ x := by
      intro x hx
      rcases List.mem_map.mp hx with ⟨k, hk, rfl⟩
      show (0 : ℤ) ≤ A * (k : ℤ)
      exact mul_nonneg (le_of_lt hA) (Int.natCast_nonneg k)
    rw [foldl_min_eq_of_le _ 0 this]

/-- Witness for `c7_consecutive_accidentals_spec` with unit 1, cap 3
and a five-member chord in which members 1, 2, 3 and 5 carry
accidentals (a run longer than the cap, a reset, and a restart). -/
theorem c7_consecutive_accidentals_spec_witness :
    NoteRenderer.chordOffsetConsecutiveAccidentals 1 3
      [⟨0, true, none, 0⟩, ⟨2, true, none, 0⟩, ⟨4, true, none, 0⟩,
        ⟨6, false, none, 0⟩, ⟨8, true, none, 0⟩] =
      ([⟨0, true, none, 0⟩, ⟨2, true, none, 0⟩, ⟨4, true, none, 0⟩,
          ⟨6, false, none, 0⟩, ⟨8, true, none, 0⟩].zipWith (applyAcc 1)
        (runPositions 3 0
          ([⟨0, true, none, 0⟩, ⟨2, true, none, 0⟩, ⟨4, true, none, 0⟩,
            ⟨6, false, none, 0⟩,
            ⟨8, true, none, 0⟩].map CEntry.hasAcc)), 0) ∧
    (NoteRenderer.chordOffsetConsecutiveAccidentals 1 3
      [⟨0, true, none, 0⟩, ⟨2, true, none, 0⟩, ⟨4, true, none, 0⟩,
        ⟨6, false, none, 0⟩, ⟨8, true, none, 0⟩]).2 =
      ((runPositions 3 0
        ([⟨0, true, none, 0⟩, ⟨2, true, none, 0⟩, ⟨4, true, none, 0⟩,
          ⟨6, false, none, 0⟩,
          ⟨8, true, none, 0⟩].map CEntry.hasAcc)).map
        (fun k : ℕ => (1 : ℤ) * (k : ℤ))).foldl min 0 :=
  c7_consecutive_accidentals_spec 1 3 _ (by norm_num) (by norm_num)

/-- Accidentals of the full note grammar. -/
inductive Acc
  | sharp
  | flat
  | natural
  | dsharp
  | dflat
deriving DecidableEq, Repr

/-- A parsed note descriptor (`NoteObj` in the source's types). -/
structure NoteObj where
  name : Char
  accidental : Option Acc
  octave : ℕ
  duration : Dur
deriving DecidableEq, Repr

/-- Modelled from the spec: the accidental part of `parseNoteString`'s
grammar — double accidentals take precedence over single ones. -/
def takeAccidental : List Char → Option Acc × List Char
  | '#' :: '#' :: r => (some .dsharp, r)
  | 'b' :: 'b' :: r => (some .dflat, r)
  | '#' :: r => (some .sharp, r)
  | 'b' :: r => (some .flat, r)
  | 'n' :: r => (some .natural, r)
  | r => (none, r)

/-- Duration character of the full note grammar (no sixteenth). -/
def durOfChar : Char → Option Dur
  | 'w' => some .w
  | 'h' => some .h
  | 'q' => some .q
  | 'e' => some .e
  | _ => none

/-- Decimal digits to a natural number. -/
def digitsToNat (ds : List Char) : ℕ :=
  ds.foldl (fun n c => 10 * n + (c.toNat - 48)) 0

/-- Modelled from the spec: `parseNoteString` from
`src/helpers/notehelpers.ts` (absent from `src/`). Full-token grammar
`<Pitch:[A-G]><Accidental?:#|b|n|##|bb><Octave:digits><Duration:w|h|q|e>`,
failing with ParseError (`none`) when any part is missing or
unrecognized. -/
def parseNoteString (s : String) : Option NoteObj :=
  match s.toList with
  | [] => none
  | c :: rest =>
    if 'A' ≤ c ∧ c ≤ 'G' then
      let p := takeAccidental rest
      let digits := p.2.takeWhile Char.isDigit
      let rest3 := p.2.dropWhile Char.isDigit
      if digits.isEmpty then none
      else
        match rest3 with
        | [d] =>
          match durOfChar d with
          | some dur => some ⟨c, p.1, digitsToNat digits, dur⟩
          | none => none
        | _ => none
    else none

/-- Errors surfaced by the pitched `MusicStaff`: the out-of-bounds
index error, the JavaScript TypeError raised when an `undefined` entry
fetched with a negative index is dereferenced, the parser error, and
the construction-time configuration error. -/
inductive MSErr
  | boundsError
  | typeError
  | parseError
  | configError
deriving DecidableEq, Repr

/-- An element of `MusicStaff`'s `noteEntries` list (the drawn SVG
group is represented by its layout data). -/
structure MEntry where
  note : NoteObj
  xPos : ℚ
  yPos : ℚ
  accidentalXOffset : ℚ
deriving DecidableEq, Repr

/-- The pitched staff's configuration: the active strategy's
`calculateNoteYPos` as a function of pitch name and octave, the
accidental offset constants (`ACCIDENTAL_OFFSET_X` and the
double-accidental extras, absent from `src/`, modelled per the spec as
fixed leftward units), and `NOTE_SPACING`. -/
structure MConfig where
  yPosOf : Char → ℕ → ℚ
  accOffX : ℚ
  dsharpOffX : ℚ
  dflatOffX : ℚ
  noteSpacing : ℚ

/-- The accidental contribution to `renderNote`'s returned
`accidentalOffset`: one leftward unit for plain accidentals, one unit
plus the double-specific extra for double accidentals, zero without an
accidental. -/
def renderNoteAccOffset (mc : MConfig) : Option Acc → ℚ
  | none => 0
  | some .sharp => -mc.accOffX
  | some .flat => -mc.accOffX
  | some .natural => -mc.accOffX
  | some .dsharp => -(mc.accOffX + mc.dsharpOffX)
  | some .dflat => -(mc.accOffX + mc.dflatOffX)

/-- Mutable state of a `MusicStaff`: the note cursor and the entry
list. -/
structure MState where
  noteCursorX : ℚ
  noteEntries : List MEntry
deriving DecidableEq, Repr

/-- Initial pitched staff state. -/
def initM : MState := ⟨0, []⟩

namespace MusicStaff

/-- `MusicStaff.drawNote` on a batch: tokens left to right; each parsed
token is rendered at the strategy's y position, placed at the cursor
plus its accidental offset, recorded in `noteEntries`, and the cursor
advances by `NOTE_SPACING` plus the accidental offset; a malformed
token commits what was drawn so far and aborts the batch. -/
def drawNote (mc : MConfig) (s : MState) :
    List String → MState × Option MSErr
  | [] => (s, none)
  | t :: ts =>
    match parseNoteString t with
    | none => (s, some .parseError)
    | some obj =>
      let yPos := mc.yPosOf obj.name obj.octave
      let accOff := renderNoteAccOffset mc obj.accidental
      let e : MEntry := ⟨obj, s.noteCursorX + accOff, yPos, accOff⟩
      drawNote mc
        ⟨s.noteCursorX + mc.noteSpacing + accOff, s.noteEntries ++ [e]⟩ ts

/-- A placeholder entry used only for the (unreachable in-range)
default of `List.getD`. -/
def dummyEntry : MEntry := ⟨⟨'A', none, 0, Dur.w⟩, 0, 0, 0⟩

/-- `changeNoteByIndex`: the source guards only `noteIndex >=
noteEntries.length` (BoundsError), then parses the note (ParseError on
a malformed token); a negative index escapes the guard and crashes with
a TypeError when the `undefined` entry's `xPos` is read — before any
entry is replaced; otherwise the indexed entry is replaced with the
re-rendered note, its x normalized by the old accidental offset and
shifted by the new one. -/
def changeNoteByIndex (mc : MConfig) (s : MState) (tok : String)
    (noteIndex : ℤ) : Except MSErr MState :=
  if (s.noteEntries.length : ℤ) ≤ noteIndex then .error .boundsError
  else
    match parseNoteString tok with
    | none => .error .parseError
    | some obj =>
      if noteIndex < 0 then .error .typeError
      else
        let yPos := mc.yPosOf obj.name obj.octave
        let accOff := renderNoteAccOffset mc obj.accidental
        let old := s.noteEntries.getD noteIndex.toNat dummyEntry
        let newX := old.xPos - old.accidentalXOffset + accOff
        .ok ⟨s.noteCursorX,
          s.noteEntries.set noteIndex.toNat ⟨obj, newX, yPos, accOff⟩⟩

end MusicStaff

/-- A concrete pitched staff configuration for witnesses: y position 0
everywhere, unit accidental offsets, `NOTE_SPACING` 30. -/
def mcfg0 : MConfig := ⟨fun _ _ => 0, 1, 1, 1, 30⟩

/-- C8, counterexample: on a staff holding one entry,
`changeNoteByIndex("C4q", -1)` does not fail with BoundsError — the
source only guards `noteIndex >= length`, so the negative index slips
through and the call dies dereferencing the `undefined` entry (a
TypeError). -/
theorem c8_bounds_counterexample :
    MusicStaff.changeNoteByIndex mcfg0 ⟨30, [MusicStaff.dummyEntry]⟩
        "C4q" (-1) = .error .typeError ∧
      ¬ (MusicStaff.changeNoteByIndex mcfg0 ⟨30, [MusicStaff.dummyEntry]⟩
        "C4q" (-1) = .error .boundsError) := by
  constructor
  · rfl
  · intro h
    rw [show MusicStaff.changeNoteByIndex mcfg0 ⟨30, [MusicStaff.dummyEntry]⟩
        "C4q" (-1) = .error .typeError from rfl] at h
    simp at h

/-- C8, amended: `changeNoteByIndex` with an index at or past the entry
count fails with BoundsError; a negative index is not bounds-guarded
and instead fails later (with a TypeError on the undefined entry, or a
ParseError first if the token is also malformed); in every out-of-range
case the call never returns an updated entry list, so all existing
entries (element, note data, positions and accidental offset) stay
unmodified. -/
theorem c8_bounds_amended (mc : MConfig) (s : MState) (tok : String)
    (i : ℤ) (hout : i < 0 ∨ (s.noteEntries.length : ℤ) ≤ i) :
    ((s.noteEntries.length : ℤ) ≤ i →
      MusicStaff.changeNoteByIndex mc s tok i = .error .boundsError) ∧
    (∀ s', MusicStaff.changeNoteByIndex mc s tok i ≠ .ok s') := by
  constructor
  · intro hge
    simp [MusicStaff.changeNoteByIndex, hge]
  · intro s' hok
    unfold MusicStaff.changeNoteByIndex at hok
    rcases hout with hneg | hge
    · split at hok
      · exact absurd hok (by simp)
      · cases hp : parseNoteString tok with
        | none => rw [hp] at hok; exact absurd hok (by simp)
        | some obj =>
          rw [hp] at hok
          have : i < 0 := hneg
          simp only [this, if_true, ite_true] at hok
          exact absurd hok (by simp)
    · simp [hge] at hok

/-- Witness for `c8_bounds_amended` at index 5 of a one-entry list. -/
theorem c8_bounds_amended_witness :
    (((⟨30, [MusicStaff.dummyEntry]⟩ : MState).noteEntries.length : ℤ) ≤ 5 →
      MusicStaff.changeNoteByIndex mcfg0 ⟨30, [MusicStaff.dummyEntry]⟩
        "C4q" 5 = .error .boundsError) ∧
    (∀ s', MusicStaff.changeNoteByIndex mcfg0 ⟨30, [MusicStaff.dummyEntry]⟩
      "C4q" 5 ≠ .ok s') :=
  c8_bounds_amended mcfg0 ⟨30, [MusicStaff.dummyEntry]⟩ "C4q" 5
    (Or.inr (by norm_num))

/-- C9, confirmed: on both the pitched staff and the rhythm staff, a
batch `drawNote` whose prefix succeeds and whose next token is
malformed commits exactly the prefix's members (drawn left to right,
reflected in the returned state's entries and cursor), throws the parse
error to the caller, and never examines the remaining tokens (the
result does not depend on them) — best-effort, not atomic. -/
theorem c9_batch_best_effort :
    (∀ (mc : MConfig) (s : MState) (toks rest : List String)
        (bad : String) (s' : MState),
      parseNoteString bad = none →
      MusicStaff.drawNote mc s toks = (s', none) →
      MusicStaff.drawNote mc s (toks ++ bad :: rest) =
        (s', some .parseError)) ∧
    (∀ (c : RConfig) (s : RState) (toks rest : List String)
        (bad : String) (s' : RState),
      parseDurationNoteString bad = none →
      RhythmStaff.drawNote c s toks = (s', none) →
      RhythmStaff.drawNote c s (toks ++ bad :: rest) =
        (s', some .parseErr)) := by
  constructor
  · intro mc s toks
    induction toks generalizing s with
    | nil =>
      intro rest bad s' hbad hpre
      have hs : s' = s := by
        simpa [MusicStaff.drawNote] using (congrArg Prod.fst hpre).symm
      subst hs
      simp [MusicStaff.drawNote, hbad]
    | cons t ts ih =>
      intro rest bad s' hbad hpre
      rw [MusicStaff.drawNote] at hpre
      cases hp : parseNoteString t with
      | none =>
        rw [hp] at hpre
        simp at hpre
      | some obj =>
        rw [hp] at hpre
        simp only [List.cons_append, MusicStaff.drawNote, hp]
        exact ih _ rest bad s' hbad hpre
  · intro c s toks
    induction toks generalizing s with
    | nil =>
      intro rest bad s' hbad hpre
      have hs : s' = s := by
        simpa [RhythmStaff.drawNote] using (congrArg Prod.fst hpre).symm
      subst hs
      simp [RhythmStaff.drawNote, RhythmStaff.drawNoteToken, hbad]
    | cons t ts ih =>
      intro rest bad s' hbad hpre
      rw [RhythmStaff.drawNote] at hpre
      cases hk : RhythmStaff.drawNoteToken c s t with
      | error e =>
        rw [hk] at hpre
        simp at hpre
      | ok s1 =>
        rw [hk] at hpre
        simp only [List.cons_append, RhythmStaff.drawNote, hk]
        exact ih _ rest bad s' hbad hpre

/-- Witness for `c9_batch_best_effort`: a one-note successful prefix
followed by a malformed token and an unexamined tail, on both staffs. -/
theorem c9_batch_best_effort_witness :
    MusicStaff.drawNote mcfg0 initM (["C4q"] ++ "X" :: ["D4w"]) =
      ((MusicStaff.drawNote mcfg0 initM ["C4q"]).1, some .parseError) ∧
    RhythmStaff.drawNote cfg41 initR (["q"] ++ "x" :: ["h"]) =
      ((RhythmStaff.drawNote cfg41 initR ["q"]).1, some .parseErr) ∧
    ((MusicStaff.drawNote mcfg0 initM
      (["C4q"] ++ "X" :: ["D4w"])).1.noteEntries.map MEntry.note) =
      [⟨'C', none, 4, Dur.q⟩] ∧
    ((RhythmStaff.drawNote cfg41 initR
      (["q"] ++ "x" :: ["h"])).1).entries = [RElem.note Dur.q] := by
  have h1 := c9_batch_best_effort.1 mcfg0 initM ["C4q"] ["D4w"] "X"
    (MusicStaff.drawNote mcfg0 initM ["C4q"]).1 (by decide)
    (Prod.ext rfl rfl)
  have h2 := c9_batch_best_effort.2 cfg41 initR ["q"] ["h"] "x"
    (RhythmStaff.drawNote cfg41 initR ["q"]).1 (by decide)
    (Prod.ext rfl rfl)
  refine ⟨h1, h2, ?_, ?_⟩
  · rw [h1]
    rfl
  · rw [h2]
    rfl

/-- Supported clefs of the single-staff strategy. -/
inductive Clef
  | treble
  | bass
  | alto
deriving DecidableEq, Repr

/-- The position strategy selected by the constructor: a single-clef
strategy or the grand (dual-clef) strategy. -/
inductive StrategyKind
  | single (c : Clef)
  | grand
deriving DecidableEq, Repr

/-- Constructor-time effects relevant to the claim: the SVG renderer is
created before the staff-type switch; `drawStaff` runs only after a
successful selection. -/
inductive InitEffect
  | createRenderer
  | drawStaff
deriving DecidableEq, Repr

/-- The staff-type switch shared by the `MusicStaff` and
`ScrollingStaff` constructors (cases in source order; any other value
falls into the throwing default). -/
def selectStrategy (t : String) : Option StrategyKind :=
  if t = "grand" then some .grand
  else if t = "bass" then some (.single .bass)
  else if t = "treble" then some (.single .treble)
  else if t = "alto" then some (.single .alto)
  else none

/-- The `MusicStaff` constructor: creates the renderer, then selects
the strategy (throwing on an unsupported staff type, before any staff
is drawn), then draws the staff. -/
def musicStaffConstruct (t : String) :
    List InitEffect × Except MSErr StrategyKind :=
  match selectStrategy t with
  | none => ([.createRenderer], .error .configError)
  | some k => ([.createRenderer, .drawStaff], .ok k)

/-- The `ScrollingStaff` constructor performs the identical renderer
creation, strategy switch and staff draw. -/
def scrollingStaffConstruct (t : String) :
    List InitEffect × Except MSErr StrategyKind :=
  match selectStrategy t with
  | none => ([.createRenderer], .error .configError)
  | some k => ([.createRenderer, .drawStaff], .ok k)

/-- C10, confirmed: constructing a `MusicStaff` (or the scrolling
variant, which behaves identically) with a staff type outside
{treble, bass, alto, grand} throws at construction, before `drawStaff`
ever runs, and each supported value selects the corresponding
strategy: a single-clef strategy for treble, bass and alto, the grand
strategy for grand. -/
theorem c10_constructor_staff_type (t : String) :
    ((musicStaffConstruct t).2 = .error .configError ↔
      ¬ (t = "treble" ∨ t = "bass" ∨ t = "alto" ∨ t = "grand")) ∧
    ((musicStaffConstruct t).2 = .error .configError →
      InitEffect.drawStaff ∉ (musicStaffConstruct t).1) ∧
    musicStaffConstruct "treble" =
      ([.createRenderer, .drawStaff], .ok (.single .treble)) ∧
    musicStaffConstruct "bass" =
      ([.createRenderer, .drawStaff], .ok (.single .bass)) ∧
    musicStaffConstruct "alto" =
      ([.createRenderer, .drawStaff], .ok (.single .alto)) ∧
    musicStaffConstruct "grand" =
      ([.createRenderer, .drawStaff], .ok .grand) ∧
    scrollingStaffConstruct t = musicStaffConstruct t := by
  refine ⟨?_, ?_, rfl, rfl, rfl, rfl, rfl⟩
  · unfold musicStaffConstruct selectStrategy
    by_cases hg : t = "grand"
    · simp [hg]
    · by_cases hb : t = "bass"
      · simp [hb]
      · by_cases ht : t = "treble"
        · simp [ht]
        · by_cases ha : t = "alto"
          · simp [ha]
          · simp [hg, hb, ht, ha]
  · intro herr
    unfold musicStaffConstruct at herr ⊢
    cases hsel : selectStrategy t with
    | none => simp [hsel]
    | some k => rw [hsel] at herr; simp at herr

/-- Witness for `c10_constructor_staff_type`: the unsupported staff
type "piano" fails at construction with no staff drawn. -/
theorem c10_constructor_staff_type_witness :
    (musicStaffConstruct "piano").2 = .error .configError ∧
      InitEffect.drawStaff ∉ (musicStaffConstruct "piano").1 :=
  ⟨((c10_constructor_staff_type "piano").1).mpr (by decide),
   (c10_constructor_staff_type "piano").2.1
     (((c10_constructor_staff_type "piano").1).mpr (by decide))⟩

end MusicStaffPkg
